import Mathlib

/-!
Shallow embedding of the membrane toolchain (src/src/instruction.rs,
src/src/optimizer.rs, src/src/interpreter.rs).

Machine integers are modelled explicitly:
* `u8` cell values are `Nat` kept below 256 by the wrapping operations.
* `i8` instruction amounts are `Int`; Rust's `i8::wrapping_add` is `wrap8`.
* `usize` is `Nat` with wrapping arithmetic taken modulo `USIZE = 2 ^ 64`
  (a 64-bit platform); `isize` is `Int` restricted by the checked-add helper.
* Rust's release-mode wrapping of a plain `+` on `isize`/`i8` is modelled by
  `wrapIsize`/`wrap8` at the few spots the source uses an unchecked `+`.
Fallible or aborting code paths (`todo!()` stubs, out-of-bounds unchecked
accesses) are modelled by `Option`, with `none` for the abort.
-/

namespace Membrane

/-- Modulus of `usize` arithmetic on a 64-bit platform. -/
def USIZE : Nat := 2 ^ 64

/-- Largest `isize` value. -/
def ISIZE_MAX : Int := 2 ^ 63 - 1

/-- Smallest `isize` value. -/
def ISIZE_MIN : Int := -(2 ^ 63)

/-- Signed 8-bit two's-complement wrap of an integer into `[-128, 127]`
(the result of `i8::wrapping_add` and of release-mode `i8` addition). -/
def wrap8 (x : Int) : Int := (x + 128) % 256 - 128

/-- Signed 64-bit two's-complement wrap (release-mode `isize` addition). -/
def wrapIsize (x : Int) : Int := (x + 2 ^ 63) % 2 ^ 64 - 2 ^ 63

/-- The cast `amount as u8` of an `i8` value: two's-complement reinterpretation. -/
def i8ToU8 (x : Int) : Nat := (x % 256).toNat

/-- Rust `cell.wrapping_add(amount as u8)` for a `u8` cell and `i8` amount. -/
def addWrap (cell : Nat) (amount : Int) : Nat := (cell + i8ToU8 amount) % 256

/-- Rust `isize::checked_add`. -/
def checkedAddI (a b : Int) : Option Int :=
  if ISIZE_MIN ≤ a + b ∧ a + b ≤ ISIZE_MAX then some (a + b) else none

/-- Rust `usize::checked_add`. -/
def checkedAddU (a b : Nat) : Option Nat :=
  if a + b < USIZE then some (a + b) else none

/-- Source file src/src/instruction.rs: the IR instruction set.  Field types follow the
source: `i8` amounts as `Int`, `isize` deltas as `Int`, `usize` counts and
jump targets as `Nat`.  `AddVector` carries its `[i8; 4]` as a 4-tuple. -/
inductive Instruction where
  | Add (amount : Int)
  | Move (amount : Int)
  | Write (amount : Nat)
  | Read (amount : Nat)
  | JumpIfZero (location : Nat)
  | JumpIfNotZero (location : Nat)
  | SetValue (value : Int)
  | AddRelative (offset : Int) (amount : Int)
  | AddVector (vector : Int × Int × Int × Int)
  | MoveRightToZero (increment : Int) (stride : Nat)
  | MoveLeftToZero (increment : Int) (stride : Nat)
deriving DecidableEq, Repr

/-- Rust `Instruction::preserves_tape_head`: true unless the instruction is `Move`
or one of the `MoveXToZero` forms. -/
def Instruction.preserves_tape_head : Instruction → Bool
  | .Move _ => false
  | .MoveRightToZero _ _ => false
  | .MoveLeftToZero _ _ => false
  | _ => true

/-- Rust `Instruction::is_add_friendly`: `!matches!(self, Read(_) | SetValue(_))`. -/
def Instruction.is_add_friendly : Instruction → Bool
  | .Read _ => false
  | .SetValue _ => false
  | _ => true

/-- Write lane `i` of an `[i8; 4]` vector (`vector[i] = x`).  The source's
checked indexing panics for `i > 3`; all source call sites guard `i ≤ 3`, and
an out-of-range lane is modelled as a no-op. -/
def setLane (v : Int × Int × Int × Int) (i : Nat) (x : Int) : Int × Int × Int × Int :=
  match i with
  | 0 => (x, v.2.1, v.2.2.1, v.2.2.2)
  | 1 => (v.1, x, v.2.2.1, v.2.2.2)
  | 2 => (v.1, v.2.1, x, v.2.2.2)
  | 3 => (v.1, v.2.1, v.2.2.1, x)
  | _ => v

/-- Read lane `i` of an `[i8; 4]` vector. -/
def getLane (v : Int × Int × Int × Int) (i : Nat) : Int :=
  match i with
  | 0 => v.1
  | 1 => v.2.1
  | 2 => v.2.2.1
  | 3 => v.2.2.2
  | _ => 0

/-- Source file src/src/interpreter.rs: `TapeSize`. -/
inductive TapeSize where
  | Finite (n : Nat)
  | Infinite
deriving DecidableEq, Repr

/-- Rust `STANDARD_TAPE_SIZE`. -/
def STANDARD_TAPE_SIZE : Nat := 30000

/-- Rust `TAPE_GROW_AMOUNT`. -/
def TAPE_GROW_AMOUNT : Nat := 50

/-- Rust `DEFAULT_INPUT_BUFFER_SIZE`. -/
def DEFAULT_INPUT_BUFFER_SIZE : Nat := 8

/-- Source file src/src/interpreter.rs: `Memory` (head, tape of `u8` cells, size policy). -/
structure Memory where
  head : Nat
  tape : List Nat
  size : TapeSize
deriving DecidableEq, Repr

namespace Memory

/-- Rust `Memory::new`. -/
def new (size : TapeSize) : Memory :=
  let length := match size with
    | .Finite tape_size => tape_size
    | .Infinite => STANDARD_TAPE_SIZE
  ⟨0, List.replicate length 0, size⟩

/-- Rust `Memory::move_head_right`.  Finite: `wrapping_add` then `wrapping_rem`
(the source panics for `Finite(0)`; the model is used with `n ≥ 1`).
Infinite: `saturating_add`. -/
def move_head_right (m : Memory) (amount : Nat) : Memory :=
  match m.size with
  | .Finite tape_size => { m with head := ((m.head + amount) % USIZE) % tape_size }
  | .Infinite => { m with head := min (m.head + amount) (USIZE - 1) }

/-- Rust `Memory::move_head_left`.  Finite: `wrapping_sub` then `wrapping_rem`.
Infinite: `saturating_sub` (truncated `Nat` subtraction). -/
def move_head_left (m : Memory) (amount : Nat) : Memory :=
  match m.size with
  | .Finite tape_size =>
      { m with head := ((m.head + (USIZE - amount % USIZE)) % USIZE) % tape_size }
  | .Infinite => { m with head := m.head - amount }

/-- Rust `Memory::move_head`.  A negative `isize` amount is negated and cast to
`usize`; release-mode wrapping makes `-isize::MIN as usize = 2^63`, which
`Int.toNat ∘ Int.neg` reproduces for the whole `isize` range. -/
def move_head (m : Memory) (amount : Int) : Memory :=
  if 0 ≤ amount then m.move_head_right amount.toNat
  else m.move_head_left (-amount).toNat

/-- The index actually used by `Memory::get_cell_mut` / `get_cell_value` to
access the backing buffer: modulo reduction for Finite, identity for
Infinite. -/
def mutIndex (m : Memory) (index : Nat) : Nat :=
  match m.size with
  | .Finite tape_size => index % tape_size
  | .Infinite => index

/-- The growth step of `Memory::get_cell_mut` under the Infinite policy:
extend by `index.saturating_add(TAPE_GROW_AMOUNT) - len` zeros when
`index ≥ len`.  Finite tapes never grow. -/
def growFor (m : Memory) (index : Nat) : Memory :=
  match m.size with
  | .Finite _ => m
  | .Infinite =>
      if m.tape.length ≤ index then
        { m with
          tape := m.tape ++
            List.replicate (min (index + TAPE_GROW_AMOUNT) (USIZE - 1) - m.tape.length) 0 }
      else m

/-- Rust `Memory::get_cell_value`: Finite reads at `index % tape_size` (unchecked,
in bounds when the tape has length `tape_size ≥ 1`); Infinite reads with
`get(index).copied().unwrap_or_default()`, so out of bounds yields 0. -/
def get_cell_value (m : Memory) (index : Nat) : Nat :=
  match m.size with
  | .Finite tape_size => m.tape.getD (index % tape_size) 0
  | .Infinite => m.tape.getD index 0

/-- Rust `Memory::current_cell_value`. -/
def current_cell_value (m : Memory) : Nat := m.get_cell_value m.head

/-- Taking the mutable borrow `Memory::get_cell_mut`: the Infinite growth
side effect plus the value currently behind the returned reference. -/
def cellMutRead (m : Memory) (index : Nat) : Nat × Memory :=
  let m' := m.growFor index
  (m'.tape.getD (m'.mutIndex index) 0, m')

/-- Writing through the reference returned by `Memory::get_cell_mut`
(after `growFor` already ran, as in the source where the borrow is held). -/
def cellWrite (m : Memory) (index : Nat) (v : Nat) : Memory :=
  { m with tape := m.tape.set (m.mutIndex index) v }

/-- Rust `Memory::current_cell_vector`: the four indices `head .. head+3`
(wrapped for Finite, saturating for Infinite), together with the memory after
the Infinite-policy growth step, which extends the tape by exactly
`TAPE_GROW_AMOUNT` cells when `head + 4 ≥ len`. -/
def current_cell_vector (m : Memory) : (Nat × Nat × Nat × Nat) × Memory :=
  match m.size with
  | .Finite tape_size =>
      ((m.head,
        ((m.head + 1) % USIZE) % tape_size,
        ((m.head + 2) % USIZE) % tape_size,
        ((m.head + 3) % USIZE) % tape_size), m)
  | .Infinite =>
      let m' := if m.tape.length ≤ m.head + 4
        then { m with tape := m.tape ++ List.replicate TAPE_GROW_AMOUNT 0 }
        else m
      ((m.head,
        min (m.head + 1) (USIZE - 1),
        min (m.head + 2) (USIZE - 1),
        min (m.head + 3) (USIZE - 1)), m')

end Memory

/-! ### Optimizer (src/src/optimizer.rs)

Each Rust pass drains `instructions` into `buffer` and swaps; the model
renders every pass as a pure function `List Instruction → List Instruction`.
The drain loops are written with an explicit fuel argument equal to the input
length (every loop iteration consumes at least one element, so this fuel is
always sufficient) to keep the definitions structurally recursive. -/

/-- Rust `squash_and_clean`, `Add` arm: accumulate adjacent `Add`s with
`i8::wrapping_add`, returning the total and the unconsumed rest. -/
def collectAdds (acc : Int) : List Instruction → Int × List Instruction
  | .Add b :: rest => collectAdds (wrap8 (acc + b)) rest
  | l => (acc, l)

/-- Rust `squash_and_clean`, `Move` arm: accumulate adjacent `Move`s with
`isize::checked_add`, stopping early (without consuming) on overflow. -/
def collectMoves (acc : Int) : List Instruction → Int × List Instruction
  | .Move b :: rest =>
      match checkedAddI acc b with
      | some acc' => collectMoves acc' rest
      | none => (acc, .Move b :: rest)
  | l => (acc, l)

/-- Rust `squash_and_clean`, `Write` arm: accumulate adjacent `Write`s with
`usize::checked_add`, stopping early on overflow. -/
def collectWrites (acc : Nat) : List Instruction → Nat × List Instruction
  | .Write b :: rest =>
      match checkedAddU acc b with
      | some acc' => collectWrites acc' rest
      | none => (acc, .Write b :: rest)
  | l => (acc, l)

/-- Rust `squash_and_clean`, `Read` arm: accumulate adjacent `Read`s with
`usize::checked_add`, stopping early on overflow. -/
def collectReads (acc : Nat) : List Instruction → Nat × List Instruction
  | .Read b :: rest =>
      match checkedAddU acc b with
      | some acc' => collectReads acc' rest
      | none => (acc, .Read b :: rest)
  | l => (acc, l)

/-- Rust `squash_and_clean`, `SetValue` arm: a run collapses to the last value. -/
def collectSetValues (v : Int) : List Instruction → Int × List Instruction
  | .SetValue w :: rest => collectSetValues w rest
  | l => (v, l)

/-- Rust `squash_and_clean`, `AddRelative` arm: accumulate adjacent `AddRelative`s
with the same offset using `i8::wrapping_add`. -/
def collectAddRels (off acc : Int) : List Instruction → Int × List Instruction
  | .AddRelative o b :: rest =>
      if o = off then collectAddRels off (wrap8 (acc + b)) rest
      else (acc, .AddRelative o b :: rest)
  | l => (acc, l)

/-- Rust `squash_and_clean`, `AddVector` arm: lane-wise `i8::wrapping_add` over a
run of adjacent `AddVector`s. -/
def collectVectors (v : Int × Int × Int × Int) :
    List Instruction → (Int × Int × Int × Int) × List Instruction
  | .AddVector w :: rest =>
      collectVectors
        (wrap8 (v.1 + w.1), wrap8 (v.2.1 + w.2.1),
         wrap8 (v.2.2.1 + w.2.2.1), wrap8 (v.2.2.2 + w.2.2.2)) rest
  | l => (v, l)

/-- Rust `squash_and_clean`, `MoveXToZero` arm: skip every immediately following
`MoveRightToZero`/`MoveLeftToZero` (only the first of the run is kept). -/
def skipMoveToZeros : List Instruction → List Instruction
  | .MoveRightToZero _ _ :: rest => skipMoveToZeros rest
  | .MoveLeftToZero _ _ :: rest => skipMoveToZeros rest
  | l => l

/-- Rust `squash_and_clean`'s demotion of an accumulated `AddVector`:
all-zero vanishes, a single nonzero lane demotes to `Add`/`AddRelative`. -/
def demoteVector (v : Int × Int × Int × Int) : List Instruction :=
  match v with
  | (0, 0, 0, 0) => []
  | (a, 0, 0, 0) => [.Add a]
  | (0, a, 0, 0) => [.AddRelative 1 a]
  | (0, 0, a, 0) => [.AddRelative 2 a]
  | (0, 0, 0, a) => [.AddRelative 3 a]
  | w => [.AddVector w]

/-- The drain loop of `squash_and_clean`, with fuel. -/
def squashGo : Nat → List Instruction → List Instruction
  | 0, l => l
  | _, [] => []
  | fuel + 1, inst :: rest =>
      match inst with
      | .Add a =>
          let p := collectAdds a rest
          (if p.1 = 0 then [] else [.Add p.1]) ++ squashGo fuel p.2
      | .Move a =>
          let p := collectMoves a rest
          (if p.1 = 0 then [] else [.Move p.1]) ++ squashGo fuel p.2
      | .Write a =>
          let p := collectWrites a rest
          (if p.1 = 0 then [] else [.Write p.1]) ++ squashGo fuel p.2
      | .Read a =>
          let p := collectReads a rest
          (if p.1 = 0 then [] else [.Read p.1]) ++ squashGo fuel p.2
      | .SetValue v =>
          let p := collectSetValues v rest
          .SetValue p.1 :: squashGo fuel p.2
      | .AddRelative off a =>
          let p := collectAddRels off a rest
          (if p.1 = 0 then []
           else if off ≠ 0 then [.AddRelative off p.1] else [.Add p.1]) ++
            squashGo fuel p.2
      | .AddVector v =>
          let p := collectVectors v rest
          demoteVector p.1 ++ squashGo fuel p.2
      | .MoveRightToZero inc st =>
          .MoveRightToZero inc st :: squashGo fuel (skipMoveToZeros rest)
      | .MoveLeftToZero inc st =>
          .MoveLeftToZero inc st :: squashGo fuel (skipMoveToZeros rest)
      | i => i :: squashGo fuel rest

/-- Rust `squash_and_clean`. -/
def squash_and_clean (l : List Instruction) : List Instruction :=
  squashGo l.length l

/-- The window patterns of `substitute_patterns_2`: `some out` when the Rust
match arm fires with `matched = true` (`out` is what it pushes), `none` when
no arm fires or the arm's guard leaves `matched = false`. -/
def match2 : Instruction → Instruction → Option (List Instruction)
  | .Add _, .SetValue v => some [.SetValue v]
  | .Add a, .AddRelative off b =>
      if 0 < off ∧ off < 4 then
        some [.AddVector (setLane (setLane (0, 0, 0, 0) 0 a) off.toNat b)]
      else none
  | .AddRelative off b, .Add a =>
      if 0 < off ∧ off < 4 then
        some [.AddVector (setLane (setLane (0, 0, 0, 0) 0 a) off.toNat b)]
      else none
  | .Add amount, .AddVector v =>
      some [.AddVector (wrap8 (v.1 + amount), v.2.1, v.2.2.1, v.2.2.2)]
  | .SetValue v, .Add amount => some [.SetValue (wrap8 (v + amount))]
  | .SetValue 0, .MoveRightToZero _ _ => some [.SetValue 0]
  | .SetValue 0, .MoveLeftToZero _ _ => some [.SetValue 0]
  | .AddRelative off amount, .AddVector v =>
      if 0 ≤ off ∧ off < 4 then
        some [.AddVector (setLane v off.toNat (wrap8 (getLane v off.toNat + amount)))]
      else none
  | .AddVector v, .Add amount =>
      some [.AddVector (wrap8 (v.1 + amount), v.2.1, v.2.2.1, v.2.2.2)]
  | .MoveRightToZero inc st, .Add amount =>
      some [.MoveRightToZero inc st, .SetValue amount]
  | .MoveLeftToZero inc st, .Add amount =>
      some [.MoveLeftToZero inc st, .SetValue amount]
  | _, _ => none

/-- The window iteration of `substitute_patterns_2`: on a match the two
matched instructions are consumed and the iterator skips one window; the
trailing element is pushed only when the last executed window did not match
(so a match ending at the second-to-last element drops the final one). -/
def subPat2Go : List Instruction → List Instruction
  | a :: b :: rest =>
      match match2 a b with
      | some fused =>
          if 2 ≤ rest.length then fused ++ subPat2Go rest else fused
      | none =>
          match rest with
          | [] => [a, b]
          | _ => a :: subPat2Go (b :: rest)
  | l => l

/-- Rust `substitute_patterns_2` (unchanged when fewer than 2 instructions). -/
def substitute_patterns_2 (l : List Instruction) : List Instruction :=
  if l.length < 2 then l else subPat2Go l

/-- The window patterns of `substitute_patterns_3`. -/
def match3 : Instruction → Instruction → Instruction → Option (List Instruction)
  | .Add a, .Move stride, .Add b =>
      if 0 ≤ stride ∧ stride < 4 then
        some [.AddVector (setLane (setLane (0, 0, 0, 0) 0 a) stride.toNat b),
              .Move stride]
      else if stride < 0 ∧ -4 < stride then
        some [.Move stride,
              .AddVector (setLane (setLane (0, 0, 0, 0) 0 b) (-stride).toNat a)]
      else none
  | .Move move1, .Add amount, .Move move2 =>
      if move1 = -move2 then some [.AddRelative move1 amount]
      else some [.AddRelative move1 amount, .Move (wrapIsize (move1 + move2))]
  | .JumpIfZero _, .Add a, .JumpIfNotZero _ =>
      if a = 1 ∨ a = -1 then some [.SetValue 0] else none
  | .JumpIfZero _, .Move stride, .JumpIfNotZero _ =>
      some (if 0 < stride then [.MoveRightToZero 0 stride.toNat]
            else if stride < 0 then [.MoveLeftToZero 0 stride.natAbs]
            else [])
  | .AddRelative offset1 amount1, inst, .AddRelative offset2 amount2 =>
      if offset1 = offset2 ∧ inst.preserves_tape_head then
        some [.AddRelative offset1 (wrap8 (amount1 + amount2)), inst]
      else none
  | _, _, _ => none

/-- The window iteration of `substitute_patterns_3`: a match consumes three
instructions and skips two windows; the trailing two elements are pushed only
when the last executed window did not match. -/
def subPat3Go : List Instruction → List Instruction
  | a :: b :: c :: rest =>
      match match3 a b c with
      | some fused =>
          if 3 ≤ rest.length then fused ++ subPat3Go rest else fused
      | none =>
          match rest with
          | [] => [a, b, c]
          | _ => a :: subPat3Go (b :: c :: rest)
  | l => l

/-- Rust `substitute_patterns_3` (unchanged when fewer than 3 instructions). -/
def substitute_patterns_3 (l : List Instruction) : List Instruction :=
  if l.length < 3 then l else subPat3Go l

/-- The window patterns of `substitute_patterns_4`. -/
def match4 : Instruction → Instruction → Instruction → Instruction →
    Option (List Instruction)
  | .Add a, .Move move1, .Add b, .Move move2 =>
      if 0 < move1 ∧ 0 < move2 ∧ wrapIsize (move1 + move2) < 4 then
        some [.AddVector (setLane (setLane (0, 0, 0, 0) 0 a) move1.toNat b),
              .Move (wrapIsize (move1 + move2))]
      else if move1 < 0 ∧ move2 < 0 ∧ -4 < wrapIsize (move1 + move2) then
        some [.Move (wrapIsize (move1 + move2)),
              .AddVector (setLane (setLane (0, 0, 0, 0) 1 b) ((-move1).toNat + 1) a)]
      else none
  | .Move move1, .Add a, .Move move2, .Add b =>
      if 0 < move1 ∧ 0 < move2 ∧ wrapIsize (move1 + move2) < 4 then
        some [.AddVector (setLane (setLane (0, 0, 0, 0) move1.toNat a)
                (wrapIsize (move1 + move2)).toNat b),
              .Move (wrapIsize (move1 + move2))]
      else if move1 < 0 ∧ move2 < 0 ∧ -4 < wrapIsize (move1 + move2) then
        some [.Move (wrapIsize (move1 + move2)),
              .AddVector (setLane (setLane (0, 0, 0, 0) 0 b) (-move2).toNat a)]
      else none
  | .JumpIfZero _, .Add increment, .Move stride, .JumpIfNotZero _ =>
      some (if 0 < stride then [.MoveRightToZero increment stride.toNat]
            else if stride < 0 then [.MoveLeftToZero increment stride.natAbs]
            else [])
  | .AddRelative offset1 amount1, inst1, inst2, .AddRelative offset2 amount2 =>
      if offset1 = offset2 ∧ inst1.is_add_friendly ∧ inst2.is_add_friendly then
        some [.AddRelative offset1 (wrap8 (amount1 + amount2)), inst1, inst2]
      else none
  | _, _, _, _ => none

/-- The window iteration of `substitute_patterns_4`: a match consumes four
instructions and skips three windows; the trailing three elements are pushed
only when the last executed window did not match. -/
def subPat4Go : List Instruction → List Instruction
  | a :: b :: c :: d :: rest =>
      match match4 a b c d with
      | some fused =>
          if 4 ≤ rest.length then fused ++ subPat4Go rest else fused
      | none =>
          match rest with
          | [] => [a, b, c, d]
          | _ => a :: subPat4Go (b :: c :: d :: rest)
  | l => l

/-- Rust `substitute_patterns_4` (unchanged when fewer than 4 instructions). -/
def substitute_patterns_4 (l : List Instruction) : List Instruction :=
  if l.length < 4 then l else subPat4Go l

/-- The inner scan of `remove_spurious_loops`: consume a loop body up to and
including the matching `JumpIfNotZero`, tracking nesting depth; `none` when
the iterator is exhausted first. -/
def skipLoopBody (depth : Nat) : List Instruction → Option (List Instruction)
  | [] => none
  | .JumpIfZero _ :: rest => skipLoopBody (depth + 1) rest
  | .JumpIfNotZero _ :: rest =>
      if depth = 0 then some rest else skipLoopBody (depth - 1) rest
  | _ :: rest => skipLoopBody depth rest

/-- The drain loop of `remove_spurious_loops`, with fuel: tracks the
conservative "current cell is statically zero" flag and drops a loop whose
`JumpIfZero` is reached with the flag set (pushing the `JumpIfZero` itself
only when the body scan exhausts the stream without finding its match). -/
def removeGo : Nat → Bool → List Instruction → List Instruction
  | 0, _, l => l
  | _, _, [] => []
  | fuel + 1, cellIsZero, inst :: rest =>
      match inst with
      | .JumpIfZero loc =>
          if cellIsZero then
            match skipLoopBody 0 rest with
            | some rest' => removeGo fuel cellIsZero rest'
            | none => [.JumpIfZero loc]
          else .JumpIfZero loc :: removeGo fuel cellIsZero rest
      | .Write a => .Write a :: removeGo fuel cellIsZero rest
      | .JumpIfNotZero loc => .JumpIfNotZero loc :: removeGo fuel true rest
      | .MoveRightToZero inc st => .MoveRightToZero inc st :: removeGo fuel true rest
      | .MoveLeftToZero inc st => .MoveLeftToZero inc st :: removeGo fuel true rest
      | .SetValue v => .SetValue v :: removeGo fuel (decide (v = 0)) rest
      | i => i :: removeGo fuel false rest

/-- Rust `remove_spurious_loops` (the flag starts true: a fresh tape is zero). -/
def remove_spurious_loops (l : List Instruction) : List Instruction :=
  removeGo l.length true l

/-- The indexed back-patching loop of `fix_loops`, with fuel: an explicit
stack of pending `JumpIfZero` indices; a `JumpIfZero` at `i` stores `i` into
its own target slot and pushes `i`; a `JumpIfNotZero` at `i` pops `j`, sets
its own target to the value stored at `j` and the slot at `j` to `i`.  An
empty pop does nothing (the source's `// TODO: ICE` branch). -/
def fixLoopsGo : Nat → List Instruction → List Nat → Nat → List Instruction
  | 0, arr, _, _ => arr
  | fuel + 1, arr, stack, i =>
      match arr[i]? with
      | none => arr
      | some (.JumpIfZero _) =>
          fixLoopsGo fuel (arr.set i (.JumpIfZero i)) (i :: stack) (i + 1)
      | some (.JumpIfNotZero _) =>
          match stack with
          | [] => fixLoopsGo fuel arr [] (i + 1)
          | j :: stack' =>
              match arr[j]? with
              | some (.JumpIfZero loop_end) =>
                  fixLoopsGo fuel
                    ((arr.set i (.JumpIfNotZero loop_end)).set j (.JumpIfZero i))
                    stack' (i + 1)
              | _ => fixLoopsGo fuel arr stack' (i + 1)
      | some _ => fixLoopsGo fuel arr stack (i + 1)

/-- Rust `fix_loops`. -/
def fix_loops (l : List Instruction) : List Instruction :=
  fixLoopsGo l.length l [] 0

/-- One cycle of the optimizer's fixed-point loop body. -/
def optimizePass (l : List Instruction) : List Instruction :=
  remove_spurious_loops
    (substitute_patterns_2
      (substitute_patterns_3
        (substitute_patterns_4
          (squash_and_clean l))))

/-- The fixed-point loop of `optimize`: repeat the five passes while the
instruction count strictly decreases.  Each productive cycle shrinks the
count by at least one, so fuel `l.length + 1` always suffices. -/
def optimizeLoop : Nat → List Instruction → List Instruction
  | 0, l => l
  | fuel + 1, l =>
      let l' := optimizePass l
      if l'.length < l.length then optimizeLoop fuel l' else l'

/-- Rust `optimize` (the `verbose` printing and the unused tape-size hint are
omitted; they do not affect the rewriting). -/
def optimize (l : List Instruction) : List Instruction :=
  fix_loops (optimizeLoop (l.length + 1) l)

/-! ### Interpreter (src/src/interpreter.rs, `interpret`)

The input source is a finite byte list; `read_exact` succeeds exactly when
enough bytes remain.  The output sink is a pure byte list and never fails,
so the `write_all`/`flush` error branches (both `todo!()`) are unreachable in
the model; the `read_exact` error branch (also `todo!()`, an abort) is
modelled as `none`.  The out-of-bounds case of the unchecked `AddVector`
writes (undefined behavior in the source) is likewise modelled as `none`. -/

/-- The interpreter's run state: memory, the shared `io_buffer`, the
remaining input, the emitted output, and the instructions-executed count. -/
structure ExecState where
  memory : Memory
  ioBuffer : List Nat
  input : List Nat
  output : List Nat
  executed : Nat
deriving DecidableEq, Repr

/-- Growing the shared `io_buffer` to hold `amount + 1` bytes when
`amount ≥ len` (used by both `Write` and `Read`). -/
def growIoBuffer (buf : List Nat) (amount : Nat) : List Nat :=
  if buf.length ≤ amount then buf ++ List.replicate (amount + 1 - buf.length) 0
  else buf

/-- The `MoveRightToZero` loop: re-borrow the current cell (with the Infinite
growth side effect), and while it is nonzero add the increment (wrapping) and
advance the head right by the stride.  Fueled; `none` on exhaustion. -/
def execMoveRightToZero (increment : Int) (stride : Nat) :
    Nat → Memory → Option Memory
  | 0, _ => none
  | fuel + 1, m =>
      let p := m.cellMutRead m.head
      if p.1 ≠ 0 then
        execMoveRightToZero increment stride fuel
          ((p.2.cellWrite p.2.head (addWrap p.1 increment)).move_head_right stride)
      else some p.2

/-- The `MoveLeftToZero` loop (mirror image). -/
def execMoveLeftToZero (increment : Int) (stride : Nat) :
    Nat → Memory → Option Memory
  | 0, _ => none
  | fuel + 1, m =>
      let p := m.cellMutRead m.head
      if p.1 ≠ 0 then
        execMoveLeftToZero increment stride fuel
          ((p.2.cellWrite p.2.head (addWrap p.1 increment)).move_head_left stride)
      else some p.2

/-- The four sequential unchecked `AddVector` cell writes; `none` when an
index is out of bounds (undefined behavior in the source). -/
def execAddVector (m : Memory) (idx : Nat × Nat × Nat × Nat)
    (v : Int × Int × Int × Int) : Option Memory :=
  if idx.1 < m.tape.length ∧ idx.2.1 < m.tape.length ∧
     idx.2.2.1 < m.tape.length ∧ idx.2.2.2 < m.tape.length then
    let t0 := m.tape.set idx.1 (addWrap (m.tape.getD idx.1 0) v.1)
    let t1 := t0.set idx.2.1 (addWrap (t0.getD idx.2.1 0) v.2.1)
    let t2 := t1.set idx.2.2.1 (addWrap (t1.getD idx.2.2.1 0) v.2.2.1)
    let t3 := t2.set idx.2.2.2 (addWrap (t2.getD idx.2.2.2 0) v.2.2.2)
    some { m with tape := t3 }
  else none

/-- The index computed by the `AddRelative` arm of `interpret`:
Finite wraps `head + (offset as usize)`, Infinite saturates in the sign's
direction. -/
def addRelativeIndex (size : TapeSize) (head : Nat) (offset : Int) : Nat :=
  match size with
  | .Finite _ => (head + (offset % (USIZE : Int)).toNat) % USIZE
  | .Infinite =>
      if 0 ≤ offset then min (head + offset.toNat) (USIZE - 1)
      else head - (-offset).toNat

/-- The fetch-decode-execute loop of `interpret`, with fuel. -/
def interpretGo (prog : List Instruction) : Nat → Nat → ExecState → Option ExecState
  | 0, _, _ => none
  | fuel + 1, pc, s =>
      match prog[pc]? with
      | none => some s
      | some inst =>
          let pc := pc + 1
          let s := { s with executed := s.executed + 1 }
          match inst with
          | .Add amount =>
              let p := s.memory.cellMutRead s.memory.head
              interpretGo prog fuel pc
                { s with memory := p.2.cellWrite p.2.head (addWrap p.1 amount) }
          | .Move amount =>
              interpretGo prog fuel pc { s with memory := s.memory.move_head amount }
          | .Write amount =>
              let cell := s.memory.current_cell_value
              let buf := growIoBuffer s.ioBuffer amount
              let buf := List.replicate amount cell ++ buf.drop amount
              interpretGo prog fuel pc
                { s with ioBuffer := buf,
                         output := s.output ++ List.replicate amount cell }
          | .Read amount =>
              if 0 < amount then
                let buf := growIoBuffer s.ioBuffer amount
                if amount ≤ s.input.length then
                  let buf := s.input.take amount ++ buf.drop amount
                  let p := s.memory.cellMutRead s.memory.head
                  interpretGo prog fuel pc
                    { s with memory := p.2.cellWrite p.2.head (buf.getLastD 0),
                             ioBuffer := buf,
                             input := s.input.drop amount }
                else none
              else interpretGo prog fuel pc s
          | .JumpIfZero location =>
              let cell := s.memory.current_cell_value
              interpretGo prog fuel (if cell = 0 then location else pc) s
          | .JumpIfNotZero location =>
              let cell := s.memory.current_cell_value
              interpretGo prog fuel (if cell ≠ 0 then location else pc) s
          | .SetValue value =>
              let p := s.memory.cellMutRead s.memory.head
              interpretGo prog fuel pc
                { s with memory := p.2.cellWrite p.2.head (i8ToU8 value) }
          | .AddRelative offset amount =>
              let index := addRelativeIndex s.memory.size s.memory.head offset
              let p := s.memory.cellMutRead index
              interpretGo prog fuel pc
                { s with memory := p.2.cellWrite index (addWrap p.1 amount) }
          | .AddVector v =>
              let q := s.memory.current_cell_vector
              match execAddVector q.2 q.1 v with
              | some m => interpretGo prog fuel pc { s with memory := m }
              | none => none
          | .MoveRightToZero increment stride =>
              match execMoveRightToZero increment stride (fuel + 1) s.memory with
              | some m => interpretGo prog fuel pc { s with memory := m }
              | none => none
          | .MoveLeftToZero increment stride =>
              match execMoveLeftToZero increment stride (fuel + 1) s.memory with
              | some m => interpretGo prog fuel pc { s with memory := m }
              | none => none

/-- Rust `interpret`: run from instruction 0 on a fresh memory and an
`io_buffer` of `DEFAULT_INPUT_BUFFER_SIZE` zeros; on normal termination
(program counter past the end, output flushed) return the emitted output and
the instructions-executed count. -/
def interpret (prog : List Instruction) (input : List Nat) (tape_size : TapeSize)
    (fuel : Nat) : Option (List Nat × Nat) :=
  (interpretGo prog fuel 0 ⟨Memory.new tape_size,
      List.replicate DEFAULT_INPUT_BUFFER_SIZE 0, input, [], 0⟩).map
    fun s => (s.output, s.executed)

/-- The invariant the interpreter maintains on a `Finite n` memory: the size
policy is fixed, the head is strictly below `n`, and the tape keeps its
original length `n`. -/
def MemInv (n : Nat) (m : Memory) : Prop :=
  m.size = .Finite n ∧ m.head < n ∧ m.tape.length = n

instance (n : Nat) (m : Memory) : Decidable (MemInv n m) := by
  unfold MemInv; infer_instance

/-! ### Theorems -/

/-- C1.  The optimizer is NOT behavior-preserving: on the program
`[Move 1, Add 1, SetValue 2, Write 1]`, the 2-window substitution pass
matches `Add`+`SetValue` at the second-to-last window, and its tail logic
then drops the trailing `Write` entirely, so the optimized program emits no
output while the raw program emits the byte 2.  This evaluates the code at
the failing input of the behavior-preservation contract. -/
theorem c1_optimize_drops_trailing_write_changing_output :
    optimize [.Move 1, .Add 1, .SetValue 2, .Write 1] = [.Move 1, .SetValue 2] ∧
    interpret [.Move 1, .Add 1, .SetValue 2, .Write 1] [] (.Finite 10) 20 =
      some ([2], 4) ∧
    interpret (optimize [.Move 1, .Add 1, .SetValue 2, .Write 1]) [] (.Finite 10) 20 =
      some ([], 2) := by
  refine ⟨by decide, by decide, by decide⟩

/-- C2.  A `Read(1)` with input byte 65 available does NOT store the consumed
byte: the source assigns `*cell = io_buffer.last()`, the last slot of the
whole shared buffer (length 8 by default) rather than the last of the `count`
bytes just read, and that slot always holds 0, so `[Read 1, Write 1]` on
input `[65]` outputs `[0]` instead of `[65]`. -/
theorem c2_read_stores_buffer_tail_not_final_byte :
    interpret [.Read 1, .Write 1] [65] (.Finite 10) 10 = some ([0], 2) := by
  decide

/-- C3 counterexample.  Reading past the available input is an abort, not a
zero default: `Read 1` on empty input makes `read_exact` fail and the
interpreter hits the `todo!()` panic stub (modelled as `none`), refuting
"never an error and never aborts". -/
theorem c3_counterexample_read_past_input_aborts :
    interpret [.Read 1] [] (.Finite 10) 10 = none := by
  decide

/-- C3 (amended).  Whenever a `Read(count)` with `count > 0` requests more
bytes than the remaining input provides, the interpreter aborts through the
unimplemented `todo!()` error path; unmet bytes are never defaulted to
zero. -/
theorem c3_read_past_input_is_fatal (count : Nat) (input : List Nat)
    (tape_size : TapeSize) (h1 : 0 < count) (h2 : input.length < count) :
    interpret [.Read count] input tape_size 10 = none := by
  have hcount : ¬ count ≤ input.length := by omega
  simp [interpret, interpretGo, h1, hcount]

/-- C3 witness: the amended theorem applied at `count = 1`, empty input. -/
theorem c3_witness :
    0 < 1 ∧ ([] : List Nat).length < 1 ∧
    interpret [.Read 1] [] .Infinite 10 = none :=
  ⟨by decide, by decide,
   c3_read_past_input_is_fatal 1 [] .Infinite (by decide) (by decide)⟩

/-- C5 counterexample.  `is_add_friendly` does not return the truth table the
claim states: it is `false` on `Read` (the claim says `true`) and `true` on
`Move` and `AddVector` (the claim says `false`). -/
theorem c5_counterexample_add_friendly_table :
    (Instruction.Read 1).is_add_friendly = false ∧
    (Instruction.Move 1).is_add_friendly = true ∧
    (Instruction.AddVector (1, 0, 0, 0)).is_add_friendly = true := by
  decide

/-- C5 (amended).  `is_add_friendly` returns `false` exactly for the `Read`
and `SetValue` variants and `true` for every other variant (`Add`, `Move`,
`Write`, the jumps, `AddRelative`, `AddVector`, and both `MoveXToZero`
forms). -/
theorem c5_add_friendly_characterization :
    (∀ a, (Instruction.Add a).is_add_friendly = true) ∧
    (∀ a, (Instruction.Move a).is_add_friendly = true) ∧
    (∀ n, (Instruction.Write n).is_add_friendly = true) ∧
    (∀ l, (Instruction.JumpIfZero l).is_add_friendly = true) ∧
    (∀ l, (Instruction.JumpIfNotZero l).is_add_friendly = true) ∧
    (∀ o a, (Instruction.AddRelative o a).is_add_friendly = true) ∧
    (∀ v, (Instruction.AddVector v).is_add_friendly = true) ∧
    (∀ i s, (Instruction.MoveRightToZero i s).is_add_friendly = true) ∧
    (∀ i s, (Instruction.MoveLeftToZero i s).is_add_friendly = true) ∧
    (∀ n, (Instruction.Read n).is_add_friendly = false) ∧
    (∀ v, (Instruction.SetValue v).is_add_friendly = false) := by
  refine ⟨fun _ => rfl, fun _ => rfl, fun _ => rfl, fun _ => rfl, fun _ => rfl,
    fun _ _ => rfl, fun _ => rfl, fun _ _ => rfl, fun _ _ => rfl,
    fun _ => rfl, fun _ => rfl⟩

/-- C6.  Optimizing `[Add 3, Move 1, Add 2, Move 2]` (the parse of
`+++>++>>`) yields TWO instructions, `AddVector (3,2,0,0)` followed by
`Move 3`, not the single `AddVectorMove` instruction the claim (and the
repository's own test) expects; no `AddVectorMove` variant exists in the
instruction set at all. -/
theorem c6_addvectormove_is_two_instructions :
    optimize [.Add 3, .Move 1, .Add 2, .Move 2] =
      [.AddVector (3, 2, 0, 0), .Move 3] ∧
    (optimize [.Add 3, .Move 1, .Add 2, .Move 2]).length = 2 := by
  refine ⟨by decide, by decide⟩

/-- C9.  `fix_loops` on a stream whose `JumpIfNotZero` has no pending
`JumpIfZero` silently ignores the empty pop (the source's `// TODO: ICE`
branch does nothing): the pass completes normally and returns the
instruction unchanged, rather than failing an assertion. -/
theorem c9_fix_loops_empty_pop_silently_ignored :
    fix_loops [.JumpIfNotZero 5] = [.JumpIfNotZero 5] ∧
    fix_loops [.Add 1, .JumpIfNotZero 7, .Add 2] =
      [.Add 1, .JumpIfNotZero 7, .Add 2] := by
  refine ⟨by decide, by decide⟩

/-- C7.  Tape-policy boundary: under `Finite n` (with `1 ≤ n`, the head in
bounds, and `n` representable as an `isize` `Move` delta) a `Move(n)` returns
the head to its original position; under `Infinite`, a `Move` whose negative
delta exceeds the current head saturates the head at exactly 0. -/
theorem c7_tape_policy_boundary (n headF headI : Nat) (tapeF tapeI : List Nat)
    (amt : Int) (hn : 0 < n) (hh : headF < n) (hrep : (n : Int) ≤ ISIZE_MAX)
    (hneg : amt < 0) (hmin : ISIZE_MIN ≤ amt) (hpast : (headI : Int) + amt < 0) :
    (Memory.move_head ⟨headF, tapeF, .Finite n⟩ (n : Int)).head = headF ∧
    (Memory.move_head ⟨headI, tapeI, .Infinite⟩ amt).head = 0 := by
  constructor
  · have h0 : (0 : Int) ≤ (n : Int) := by positivity
    have hrepn : n ≤ 2 ^ 63 - 1 := by
      have h' : (n : Int) ≤ 2 ^ 63 - 1 := by simpa [ISIZE_MAX] using hrep
      omega
    simp only [Memory.move_head, h0, if_pos, Memory.move_head_right, Int.toNat_natCast]
    have hlt : headF + n < USIZE := by
      simp only [USIZE]
      omega
    rw [Nat.mod_eq_of_lt hlt, Nat.add_mod_right, Nat.mod_eq_of_lt hh]
  · have h0 : ¬ (0 : Int) ≤ amt := by omega
    simp only [Memory.move_head, h0, if_false, Memory.move_head_left]
    have : headI < (-amt).toNat := by omega
    omega

/-- C7 witness: `Finite 5` with head 2 and `Move 5`; `Infinite` with head 3
and `Move (-7)`. -/
theorem c7_witness :
    (0 < 5 ∧ 2 < 5 ∧ ((5 : Nat) : Int) ≤ ISIZE_MAX ∧
      (-7 : Int) < 0 ∧ ISIZE_MIN ≤ (-7 : Int) ∧ ((3 : Nat) : Int) + (-7) < 0) ∧
    (Memory.move_head ⟨2, List.replicate 5 0, .Finite 5⟩ ((5 : Nat) : Int)).head = 2 ∧
    (Memory.move_head ⟨3, List.replicate 5 0, .Infinite⟩ (-7)).head = 0 := by
  have h := c7_tape_policy_boundary 5 2 3 (List.replicate 5 0) (List.replicate 5 0)
    (-7) (by decide) (by decide) (by decide) (by decide) (by decide) (by decide)
  exact ⟨⟨by decide, by decide, by decide, by decide, by decide, by decide⟩, h.1, h.2⟩

/-- C4.  Under the Infinite policy, `current_cell_vector` does NOT establish
bounds for every reachable head: after `Move 30047` on a fresh tape (length
30000), the access check `head + 4 ≥ len` triggers a growth of only
`TAPE_GROW_AMOUNT = 50` cells, so the tape becomes 30050 cells while the
returned fourth index is `head + 3 = 30050` — not strictly within the
buffer — and the subsequent unchecked `AddVector` write is out of bounds
(undefined behavior, modelled as `none`). -/
theorem c4_addvector_index_escapes_grown_tape :
    ((Memory.new .Infinite).move_head_right 30047).head = 30047 ∧
    (((Memory.new .Infinite).move_head_right 30047).current_cell_vector).1.2.2.2 = 30050 ∧
    (((Memory.new .Infinite).move_head_right 30047).current_cell_vector).2.tape.length = 30050 ∧
    ¬ ((((Memory.new .Infinite).move_head_right 30047).current_cell_vector).1.2.2.2 <
        (((Memory.new .Infinite).move_head_right 30047).current_cell_vector).2.tape.length) ∧
    execAddVector
      (((Memory.new .Infinite).move_head_right 30047).current_cell_vector).2
      (((Memory.new .Infinite).move_head_right 30047).current_cell_vector).1
      (1, 1, 1, 1) = none := by
  have hhead : ((Memory.new .Infinite).move_head_right 30047).head = 30047 := by
    simp only [Memory.new, Memory.move_head_right, STANDARD_TAPE_SIZE, USIZE]
    norm_num
  have hq : (((Memory.new .Infinite).move_head_right 30047).current_cell_vector).1.2.2.2 =
      30050 ∧
      (((Memory.new .Infinite).move_head_right 30047).current_cell_vector).2.tape.length =
      30050 := by
    simp only [Memory.current_cell_vector, Memory.new, Memory.move_head_right,
      STANDARD_TAPE_SIZE, USIZE, TAPE_GROW_AMOUNT, List.length_replicate,
      List.length_append]
    norm_num
  refine ⟨hhead, hq.1, hq.2, by omega, ?_⟩
  simp only [execAddVector, hq.1, hq.2]
  have : ¬ ((((Memory.new .Infinite).move_head_right 30047).current_cell_vector).1.1 < 30050 ∧
      (((Memory.new .Infinite).move_head_right 30047).current_cell_vector).1.2.1 < 30050 ∧
      (((Memory.new .Infinite).move_head_right 30047).current_cell_vector).1.2.2.1 < 30050 ∧
      (30050 : Nat) < 30050) := by
    omega
  rw [if_neg this]

/-! Length bounds for the five optimizer passes (claim C8). -/

theorem collectAdds_length (acc : Int) (l : List Instruction) :
    (collectAdds acc l).2.length ≤ l.length := by
  induction l generalizing acc with
  | nil => simp [collectAdds]
  | cons i rest ih =>
      cases i
      case Add a => exact (ih _).trans (Nat.le_succ _)
      all_goals simp [collectAdds]

theorem collectMoves_length (acc : Int) (l : List Instruction) :
    (collectMoves acc l).2.length ≤ l.length := by
  induction l generalizing acc with
  | nil => simp [collectMoves]
  | cons i rest ih =>
      cases i
      case Move b =>
        simp only [collectMoves]
        cases checkedAddI acc b with
        | none => simp
        | some acc' => exact (ih _).trans (Nat.le_succ _)
      all_goals simp [collectMoves]

theorem collectWrites_length (acc : Nat) (l : List Instruction) :
    (collectWrites acc l).2.length ≤ l.length := by
  induction l generalizing acc with
  | nil => simp [collectWrites]
  | cons i rest ih =>
      cases i
      case Write b =>
        simp only [collectWrites]
        cases checkedAddU acc b with
        | none => simp
        | some acc' => exact (ih _).trans (Nat.le_succ _)
      all_goals simp [collectWrites]

theorem collectReads_length (acc : Nat) (l : List Instruction) :
    (collectReads acc l).2.length ≤ l.length := by
  induction l generalizing acc with
  | nil => simp [collectReads]
  | cons i rest ih =>
      cases i
      case Read b =>
        simp only [collectReads]
        cases checkedAddU acc b with
        | none => simp
        | some acc' => exact (ih _).trans (Nat.le_succ _)
      all_goals simp [collectReads]

theorem collectSetValues_length (v : Int) (l : List Instruction) :
    (collectSetValues v l).2.length ≤ l.length := by
  induction l generalizing v with
  | nil => simp [collectSetValues]
  | cons i rest ih =>
      cases i
      case SetValue w => exact (ih _).trans (Nat.le_succ _)
      all_goals simp [collectSetValues]

theorem collectAddRels_length (off acc : Int) (l : List Instruction) :
    (collectAddRels off acc l).2.length ≤ l.length := by
  induction l generalizing acc with
  | nil => simp [collectAddRels]
  | cons i rest ih =>
      cases i
      case AddRelative o b =>
        simp only [collectAddRels]
        split
        · exact (ih _).trans (Nat.le_succ _)
        · simp
      all_goals simp [collectAddRels]

theorem collectVectors_length (v : Int × Int × Int × Int) (l : List Instruction) :
    (collectVectors v l).2.length ≤ l.length := by
  induction l generalizing v with
  | nil => simp [collectVectors]
  | cons i rest ih =>
      cases i
      case AddVector w => exact (ih _).trans (Nat.le_succ _)
      all_goals simp [collectVectors]

theorem skipMoveToZeros_length (l : List Instruction) :
    (skipMoveToZeros l).length ≤ l.length := by
  induction l with
  | nil => simp [skipMoveToZeros]
  | cons i rest ih =>
      cases i
      case MoveRightToZero inc st => exact ih.trans (Nat.le_succ _)
      case MoveLeftToZero inc st => exact ih.trans (Nat.le_succ _)
      all_goals simp [skipMoveToZeros]

theorem demoteVector_length (v : Int × Int × Int × Int) :
    (demoteVector v).length ≤ 1 := by
  obtain ⟨a, b, c, d⟩ := v
  simp only [demoteVector]
  split <;> simp

theorem squashGo_length (fuel : Nat) : ∀ l : List Instruction,
    (squashGo fuel l).length ≤ l.length := by
  induction fuel with
  | zero => intro l; simp [squashGo]
  | succ fuel ih =>
      intro l
      match l with
      | [] => simp [squashGo]
      | inst :: rest =>
          cases inst
          case Add a =>
            have h1 := collectAdds_length a rest
            have h2 := ih (collectAdds a rest).2
            show ((if (collectAdds a rest).1 = 0 then []
                else [Instruction.Add (collectAdds a rest).1]) ++
                squashGo fuel (collectAdds a rest).2).length ≤ rest.length + 1
            rw [List.length_append]
            split <;> simp only [List.length_nil, List.length_cons] <;> omega
          case Move a =>
            have h1 := collectMoves_length a rest
            have h2 := ih (collectMoves a rest).2
            show ((if (collectMoves a rest).1 = 0 then []
                else [Instruction.Move (collectMoves a rest).1]) ++
                squashGo fuel (collectMoves a rest).2).length ≤ rest.length + 1
            rw [List.length_append]
            split <;> simp only [List.length_nil, List.length_cons] <;> omega
          case Write a =>
            have h1 := collectWrites_length a rest
            have h2 := ih (collectWrites a rest).2
            show ((if (collectWrites a rest).1 = 0 then []
                else [Instruction.Write (collectWrites a rest).1]) ++
                squashGo fuel (collectWrites a rest).2).length ≤ rest.length + 1
            rw [List.length_append]
            split <;> simp only [List.length_nil, List.length_cons] <;> omega
          case Read a =>
            have h1 := collectReads_length a rest
            have h2 := ih (collectReads a rest).2
            show ((if (collectReads a rest).1 = 0 then []
                else [Instruction.Read (collectReads a rest).1]) ++
                squashGo fuel (collectReads a rest).2).length ≤ rest.length + 1
            rw [List.length_append]
            split <;> simp only [List.length_nil, List.length_cons] <;> omega
          case SetValue v =>
            have h1 := collectSetValues_length v rest
            have h2 := ih (collectSetValues v rest).2
            show (Instruction.SetValue (collectSetValues v rest).1 ::
                squashGo fuel (collectSetValues v rest).2).length ≤ rest.length + 1
            simp only [List.length_cons]
            omega
          case AddRelative off a =>
            have h1 := collectAddRels_length off a rest
            have h2 := ih (collectAddRels off a rest).2
            show ((if (collectAddRels off a rest).1 = 0 then []
                else if off ≠ 0 then [Instruction.AddRelative off (collectAddRels off a rest).1]
                else [Instruction.Add (collectAddRels off a rest).1]) ++
                squashGo fuel (collectAddRels off a rest).2).length ≤ rest.length + 1
            rw [List.length_append]
            have h3 : (if (collectAddRels off a rest).1 = 0 then ([] : List Instruction)
                else if off ≠ 0 then [Instruction.AddRelative off (collectAddRels off a rest).1]
                else [Instruction.Add (collectAddRels off a rest).1]).length ≤ 1 := by
              split
              · simp
              · split <;> simp
            omega
          case AddVector v =>
            have h1 := collectVectors_length v rest
            have h2 := ih (collectVectors v rest).2
            have h3 := demoteVector_length (collectVectors v rest).1
            show (demoteVector (collectVectors v rest).1 ++
                squashGo fuel (collectVectors v rest).2).length ≤ rest.length + 1
            rw [List.length_append]
            omega
          case MoveRightToZero inc st =>
            have h1 := skipMoveToZeros_length rest
            have h2 := ih (skipMoveToZeros rest)
            show (Instruction.MoveRightToZero inc st ::
                squashGo fuel (skipMoveToZeros rest)).length ≤ rest.length + 1
            simp only [List.length_cons]
            omega
          case MoveLeftToZero inc st =>
            have h1 := skipMoveToZeros_length rest
            have h2 := ih (skipMoveToZeros rest)
            show (Instruction.MoveLeftToZero inc st ::
                squashGo fuel (skipMoveToZeros rest)).length ≤ rest.length + 1
            simp only [List.length_cons]
            omega
          case JumpIfZero loc =>
            have h2 := ih rest
            show (Instruction.JumpIfZero loc :: squashGo fuel rest).length ≤ rest.length + 1
            simp only [List.length_cons]
            omega
          case JumpIfNotZero loc =>
            have h2 := ih rest
            show (Instruction.JumpIfNotZero loc :: squashGo fuel rest).length ≤ rest.length + 1
            simp only [List.length_cons]
            omega

theorem squash_and_clean_length (l : List Instruction) :
    (squash_and_clean l).length ≤ l.length :=
  squashGo_length l.length l

theorem match2_length (a b : Instruction) (out : List Instruction)
    (h : match2 a b = some out) : out.length ≤ 2 := by
  unfold match2 at h
  split at h <;> (try split at h) <;> (try split at h) <;>
    (try (injection h with h)) <;> (try subst h) <;>
    (try split) <;> (try split) <;> simp_all

theorem match3_length (a b c : Instruction) (out : List Instruction)
    (h : match3 a b c = some out) : out.length ≤ 2 := by
  unfold match3 at h
  split at h <;> (try split at h) <;> (try split at h) <;>
    (try (injection h with h)) <;> (try subst h) <;>
    (try split) <;> (try split) <;> simp_all

theorem match4_length (a b c d : Instruction) (out : List Instruction)
    (h : match4 a b c d = some out) : out.length ≤ 3 := by
  unfold match4 at h
  split at h <;> (try split at h) <;> (try split at h) <;>
    (try (injection h with h)) <;> (try subst h) <;>
    (try split) <;> (try split) <;> simp_all

theorem subPat2Go_length (l : List Instruction) :
    (subPat2Go l).length ≤ l.length := by
  induction l using subPat2Go.induct with
  | case1 a b rest fused hm hlen ih =>
      have h2 := match2_length a b fused hm
      simp only [subPat2Go, hm, if_pos hlen, List.length_append, List.length_cons]
      omega
  | case2 a b rest fused hm hlen =>
      have h2 := match2_length a b fused hm
      simp only [subPat2Go, hm, if_neg hlen, List.length_cons]
      omega
  | case3 a b hm => simp [subPat2Go, hm]
  | case4 a b rest hm hne ih =>
      cases rest with
      | nil => exact absurd rfl hne
      | cons r rs =>
          simp only [subPat2Go, hm, List.length_cons] at ih ⊢
          omega
  | case5 l hnot =>
      match l, hnot with
      | [], _ => simp [subPat2Go]
      | [x], _ => simp [subPat2Go]
      | a :: b :: rest, h => exact absurd rfl (h a b rest)

theorem subPat3Go_length (l : List Instruction) :
    (subPat3Go l).length ≤ l.length := by
  induction l using subPat3Go.induct with
  | case1 a b c rest fused hm hlen ih =>
      have h2 := match3_length a b c fused hm
      simp only [subPat3Go, hm, if_pos hlen, List.length_append, List.length_cons]
      omega
  | case2 a b c rest fused hm hlen =>
      have h2 := match3_length a b c fused hm
      simp only [subPat3Go, hm, if_neg hlen, List.length_cons]
      omega
  | case3 a b c hm => simp [subPat3Go, hm]
  | case4 a b c rest hm hne ih =>
      cases rest with
      | nil => exact absurd rfl hne
      | cons r rs =>
          simp only [subPat3Go, hm, List.length_cons] at ih ⊢
          omega
  | case5 l hnot =>
      match l, hnot with
      | [], _ => simp [subPat3Go]
      | [x], _ => simp [subPat3Go]
      | [x, y], _ => simp [subPat3Go]
      | a :: b :: c :: rest, h => exact absurd rfl (h a b c rest)

theorem subPat4Go_length (l : List Instruction) :
    (subPat4Go l).length ≤ l.length := by
  induction l using subPat4Go.induct with
  | case1 a b c d rest fused hm hlen ih =>
      have h2 := match4_length a b c d fused hm
      simp only [subPat4Go, hm, if_pos hlen, List.length_append, List.length_cons]
      omega
  | case2 a b c d rest fused hm hlen =>
      have h2 := match4_length a b c d fused hm
      simp only [subPat4Go, hm, if_neg hlen, List.length_cons]
      omega
  | case3 a b c d hm => simp [subPat4Go, hm]
  | case4 a b c d rest hm hne ih =>
      cases rest with
      | nil => exact absurd rfl hne
      | cons r rs =>
          simp only [subPat4Go, hm, List.length_cons] at ih ⊢
          omega
  | case5 l hnot =>
      match l, hnot with
      | [], _ => simp [subPat4Go]
      | [x], _ => simp [subPat4Go]
      | [x, y], _ => simp [subPat4Go]
      | [x, y, z], _ => simp [subPat4Go]
      | a :: b :: c :: d :: rest, h => exact absurd rfl (h a b c d rest)

theorem skipLoopBody_length (l : List Instruction) : ∀ (depth : Nat)
    (rest' : List Instruction), skipLoopBody depth l = some rest' →
    rest'.length ≤ l.length := by
  induction l with
  | nil => intro depth rest' h; simp [skipLoopBody] at h
  | cons i rest ih =>
      intro depth rest' h
      cases i
      case JumpIfZero loc =>
        exact (ih _ _ h).trans (Nat.le_succ _)
      case JumpIfNotZero loc =>
        simp only [skipLoopBody] at h
        split at h
        · injection h with h; subst h; exact Nat.le_succ _
        · exact (ih _ _ h).trans (Nat.le_succ _)
      all_goals exact (ih _ _ h).trans (Nat.le_succ _)

theorem removeGo_length (fuel : Nat) : ∀ (flag : Bool) (l : List Instruction),
    (removeGo fuel flag l).length ≤ l.length := by
  induction fuel with
  | zero => intro flag l; simp [removeGo]
  | succ fuel ih =>
      intro flag l
      match l with
      | [] => simp [removeGo]
      | inst :: rest =>
          cases inst
          case JumpIfZero loc =>
            show (if flag then
                (match skipLoopBody 0 rest with
                 | some rest' => removeGo fuel flag rest'
                 | none => [Instruction.JumpIfZero loc])
              else Instruction.JumpIfZero loc :: removeGo fuel flag rest).length ≤ rest.length + 1
            split
            · cases hs : skipLoopBody 0 rest with
              | none => simp
              | some rest' =>
                  have h1 := skipLoopBody_length rest 0 rest' hs
                  have h2 := ih flag rest'
                  simp only []
                  omega
            · have h2 := ih flag rest
              simp only [List.length_cons]
              omega
          case Write a =>
            have h2 := ih flag rest
            show (Instruction.Write a :: removeGo fuel flag rest).length ≤ rest.length + 1
            simp only [List.length_cons]; omega
          case JumpIfNotZero loc =>
            have h2 := ih true rest
            show (Instruction.JumpIfNotZero loc :: removeGo fuel true rest).length ≤
              rest.length + 1
            simp only [List.length_cons]; omega
          case MoveRightToZero inc st =>
            have h2 := ih true rest
            show (Instruction.MoveRightToZero inc st :: removeGo fuel true rest).length ≤
              rest.length + 1
            simp only [List.length_cons]; omega
          case MoveLeftToZero inc st =>
            have h2 := ih true rest
            show (Instruction.MoveLeftToZero inc st :: removeGo fuel true rest).length ≤
              rest.length + 1
            simp only [List.length_cons]; omega
          case SetValue v =>
            have h2 := ih (decide (v = 0)) rest
            show (Instruction.SetValue v :: removeGo fuel (decide (v = 0)) rest).length ≤
              rest.length + 1
            simp only [List.length_cons]; omega
          case Add a =>
            have h2 := ih false rest
            show (Instruction.Add a :: removeGo fuel false rest).length ≤ rest.length + 1
            simp only [List.length_cons]; omega
          case Move a =>
            have h2 := ih false rest
            show (Instruction.Move a :: removeGo fuel false rest).length ≤ rest.length + 1
            simp only [List.length_cons]; omega
          case Read a =>
            have h2 := ih false rest
            show (Instruction.Read a :: removeGo fuel false rest).length ≤ rest.length + 1
            simp only [List.length_cons]; omega
          case AddRelative o a =>
            have h2 := ih false rest
            show (Instruction.AddRelative o a :: removeGo fuel false rest).length ≤
              rest.length + 1
            simp only [List.length_cons]; omega
          case AddVector v =>
            have h2 := ih false rest
            show (Instruction.AddVector v :: removeGo fuel false rest).length ≤
              rest.length + 1
            simp only [List.length_cons]; omega

/-- C8.  Every one of the five internal optimizer passes returns an
instruction sequence no longer than its input, which is why the outer
fixed-point loop (repeat while the count strictly decreases) halts. -/
theorem c8_passes_never_grow (l : List Instruction) :
    (squash_and_clean l).length ≤ l.length ∧
    (substitute_patterns_4 l).length ≤ l.length ∧
    (substitute_patterns_3 l).length ≤ l.length ∧
    (substitute_patterns_2 l).length ≤ l.length ∧
    (remove_spurious_loops l).length ≤ l.length := by
  refine ⟨squash_and_clean_length l, ?_, ?_, ?_, removeGo_length l.length true l⟩
  · unfold substitute_patterns_4
    split
    · exact le_refl _
    · exact subPat4Go_length l
  · unfold substitute_patterns_3
    split
    · exact le_refl _
    · exact subPat3Go_length l
  · unfold substitute_patterns_2
    split
    · exact le_refl _
    · exact subPat2Go_length l

/-! Preservation of the `Finite n` memory invariant (claim C10). -/

theorem MemInv_move_head_right (n : Nat) (hn : 0 < n) (m : Memory) (a : Nat)
    (h : MemInv n m) : MemInv n (m.move_head_right a) := by
  obtain ⟨hs, hh, ht⟩ := h
  simp only [Memory.move_head_right, hs]
  exact ⟨rfl, Nat.mod_lt _ hn, ht⟩

theorem MemInv_move_head_left (n : Nat) (hn : 0 < n) (m : Memory) (a : Nat)
    (h : MemInv n m) : MemInv n (m.move_head_left a) := by
  obtain ⟨hs, hh, ht⟩ := h
  simp only [Memory.move_head_left, hs]
  exact ⟨rfl, Nat.mod_lt _ hn, ht⟩

theorem MemInv_move_head (n : Nat) (hn : 0 < n) (m : Memory) (a : Int)
    (h : MemInv n m) : MemInv n (m.move_head a) := by
  unfold Memory.move_head
  split
  · exact MemInv_move_head_right n hn m _ h
  · exact MemInv_move_head_left n hn m _ h

theorem growFor_finite (n : Nat) (m : Memory) (idx : Nat)
    (hs : m.size = .Finite n) : m.growFor idx = m := by
  simp [Memory.growFor, hs]

theorem cellMutRead_snd_finite (n : Nat) (m : Memory) (idx : Nat)
    (hs : m.size = .Finite n) : (m.cellMutRead idx).2 = m := by
  simp [Memory.cellMutRead, growFor_finite n m idx hs]

theorem MemInv_cellWrite (n : Nat) (m : Memory) (idx v : Nat)
    (h : MemInv n m) : MemInv n (m.cellWrite idx v) := by
  obtain ⟨hs, hh, ht⟩ := h
  exact ⟨hs, hh, by simp [Memory.cellWrite, List.length_set, ht]⟩

theorem current_cell_vector_snd_finite (n : Nat) (m : Memory)
    (hs : m.size = .Finite n) : (m.current_cell_vector).2 = m := by
  simp [Memory.current_cell_vector, hs]

theorem MemInv_execAddVector (n : Nat) (m : Memory) (idx : Nat × Nat × Nat × Nat)
    (v : Int × Int × Int × Int) (m' : Memory) (h : MemInv n m)
    (he : execAddVector m idx v = some m') : MemInv n m' := by
  obtain ⟨hs, hh, ht⟩ := h
  unfold execAddVector at he
  split at he
  · injection he with he
    subst he
    exact ⟨hs, hh, by simp [List.length_set, ht]⟩
  · cases he

theorem MemInv_execMoveRightToZero (n : Nat) (hn : 0 < n) (inc : Int) (st : Nat) :
    ∀ (fuel : Nat) (m m' : Memory), MemInv n m →
      execMoveRightToZero inc st fuel m = some m' → MemInv n m' := by
  intro fuel
  induction fuel with
  | zero => intro m m' _ h; simp [execMoveRightToZero] at h
  | succ fuel ih =>
      intro m m' hm h
      have hs := hm.1
      simp only [execMoveRightToZero] at h
      rw [cellMutRead_snd_finite n m m.head hs] at h
      split at h
      · exact ih _ _ (MemInv_move_head_right n hn _ _
          (MemInv_cellWrite n _ _ _ hm)) h
      · injection h with h
        subst h
        exact hm

theorem MemInv_execMoveLeftToZero (n : Nat) (hn : 0 < n) (inc : Int) (st : Nat) :
    ∀ (fuel : Nat) (m m' : Memory), MemInv n m →
      execMoveLeftToZero inc st fuel m = some m' → MemInv n m' := by
  intro fuel
  induction fuel with
  | zero => intro m m' _ h; simp [execMoveLeftToZero] at h
  | succ fuel ih =>
      intro m m' hm h
      have hs := hm.1
      simp only [execMoveLeftToZero] at h
      rw [cellMutRead_snd_finite n m m.head hs] at h
      split at h
      · exact ih _ _ (MemInv_move_head_left n hn _ _
          (MemInv_cellWrite n _ _ _ hm)) h
      · injection h with h
        subst h
        exact hm

theorem interpretGo_MemInv (n : Nat) (hn : 0 < n) (prog : List Instruction) :
    ∀ (fuel pc : Nat) (s s' : ExecState), MemInv n s.memory →
      interpretGo prog fuel pc s = some s' → MemInv n s'.memory := by
  intro fuel
  induction fuel with
  | zero => intro pc s s' _ h; simp [interpretGo] at h
  | succ fuel ih =>
      intro pc s s' hm h
      cases hpc : prog[pc]? with
      | none =>
          simp only [interpretGo, hpc] at h
          injection h with h
          subst h
          exact hm
      | some inst =>
          have hs := hm.1
          cases inst <;> simp only [interpretGo, hpc] at h
          case Add a =>
            rw [cellMutRead_snd_finite n s.memory s.memory.head hs] at h
            refine ih _ _ _ ?_ h
            exact MemInv_cellWrite n _ _ _ hm
          case Move a =>
            refine ih _ _ _ ?_ h
            exact MemInv_move_head n hn _ _ hm
          case Write a =>
            refine ih _ _ _ ?_ h
            exact hm
          case Read a =>
            split at h
            · split at h
              · rw [cellMutRead_snd_finite n s.memory s.memory.head hs] at h
                refine ih _ _ _ ?_ h
                exact MemInv_cellWrite n _ _ _ hm
              · cases h
            · refine ih _ _ _ ?_ h
              exact hm
          case JumpIfZero loc =>
            refine ih _ _ _ ?_ h
            exact hm
          case JumpIfNotZero loc =>
            refine ih _ _ _ ?_ h
            exact hm
          case SetValue v =>
            rw [cellMutRead_snd_finite n s.memory s.memory.head hs] at h
            refine ih _ _ _ ?_ h
            exact MemInv_cellWrite n _ _ _ hm
          case AddRelative off a =>
            rw [cellMutRead_snd_finite n s.memory
              (addRelativeIndex s.memory.size s.memory.head off) hs] at h
            refine ih _ _ _ ?_ h
            exact MemInv_cellWrite n _ _ _ hm
          case AddVector v =>
            rw [current_cell_vector_snd_finite n s.memory hs] at h
            cases he : execAddVector s.memory (s.memory.current_cell_vector).1 v with
            | none => rw [he] at h; cases h
            | some m2 =>
                rw [he] at h
                refine ih _ _ _ ?_ h
                exact MemInv_execAddVector n s.memory _ v m2 hm he
          case MoveRightToZero inc st =>
            cases he : execMoveRightToZero inc st (fuel + 1) s.memory with
            | none => rw [he] at h; cases h
            | some m2 =>
                rw [he] at h
                refine ih _ _ _ ?_ h
                exact MemInv_execMoveRightToZero n hn inc st (fuel + 1) s.memory m2 hm he
          case MoveLeftToZero inc st =>
            cases he : execMoveLeftToZero inc st (fuel + 1) s.memory with
            | none => rw [he] at h; cases h
            | some m2 =>
                rw [he] at h
                refine ih _ _ _ ?_ h
                exact MemInv_execMoveLeftToZero n hn inc st (fuel + 1) s.memory m2 hm he

/-- C10.  Under `Finite n` with `n ≥ 1`, the interpreter preserves the memory
invariant — the head stays strictly below `n` and the tape keeps length `n` —
across any run that terminates normally, and the index the cell accessors use
(`mutIndex`, the source's `index.wrapping_rem(tape_size)`) is always strictly
below `n`, so every tape access stays inside the length-`n` buffer.  The
hypothesis `0 < n` is required: the source's modulo reduction panics for
`Finite(0)`. -/
theorem c10_finite_tape_invariant (n : Nat) (hn : 0 < n) (prog : List Instruction)
    (fuel pc : Nat) (s s' : ExecState) (hinv : MemInv n s.memory)
    (hrun : interpretGo prog fuel pc s = some s') :
    MemInv n s'.memory ∧
      ∀ (m : Memory), m.size = .Finite n → ∀ idx, m.mutIndex idx < n := by
  refine ⟨interpretGo_MemInv n hn prog fuel pc s s' hinv hrun, ?_⟩
  intro m hs idx
  simp only [Memory.mutIndex, hs]
  exact Nat.mod_lt _ hn

/-- C10 witness: a `Finite 3` run of `[Move 1]` from the initial state. -/
theorem c10_witness :
    0 < 3 ∧
    MemInv 3 (ExecState.mk (Memory.new (.Finite 3)) (List.replicate 8 0) [] [] 0).memory ∧
    (MemInv 3 (ExecState.mk (Memory.mk 1 [0, 0, 0] (.Finite 3))
        (List.replicate 8 0) [] [] 1).memory ∧
      ∀ (m : Memory), m.size = .Finite 3 → ∀ idx, m.mutIndex idx < 3) :=
  ⟨by decide, by decide,
   c10_finite_tape_invariant 3 (by decide) [.Move 1] 3 0
     (ExecState.mk (Memory.new (.Finite 3)) (List.replicate 8 0) [] [] 0)
     (ExecState.mk (Memory.mk 1 [0, 0, 0] (.Finite 3)) (List.replicate 8 0) [] [] 1)
     (by decide) (by decide)⟩

end Membrane
